import Mathlib

/-!
Shallow embedding of the `ssz` package of rjl493456442/firefly: a
SimpleSerialize (SSZ) codec driven by Go reflection.  Go types are modelled by
the inductive `Ty`, runtime values by `Val`, the mutable `encodeState`
(primary buffer + auxiliary tail buffer) by `EncState`, and the byte-stream
reader by `Stream`.  Machine integers are `Nat` with explicit `% 2^w`
truncation where the Go code truncates (uint32 offsets, `reflect.SetUint`).

Scope of the universe: bool, uintN (8/16/32/64), `int8` (an unsupported kind,
kept to exercise the codec-resolution error paths), `*big.Int`, `[N]byte`,
`[]byte`, `string`, homogeneous slices and arrays, and structs whose fields
are all exported.  Pointer and interface wrappers, custom `Encoder`/`Decoder`
implementations and heterogeneous (interface-element) arrays are outside the
universe; no claim in this development depends on them.
-/

namespace SSZ

/-- Error kinds surfaced by the engine (`errors.New`/`fmt.Errorf` values in the
source, plus the `io` errors).  Two constructors are not Go error values:
`outOfFuel` models a decode loop that would not have terminated within the
given fuel, and `panicked` models a Go runtime panic (the `v.Index(0)`
out-of-range panic of `getTypeSize` on a zero-length fixed array).  A panic
unwinds the whole call stack, so the model propagates `panicked` out of every
encoder — including the call sites that discard ordinary returned errors —
and never flushes or writes past it. -/
inductive Err where
  | unsupportedType (kind : String)
  | negativeBigInt
  | bigIntWidth
  | notAPointer
  | decodeIntoNil
  | eof
  | unexpectedEOF
  | outOfFuel
  | panicked
deriving DecidableEq

/-- Go type descriptors of the modelled universe (`reflect.Type`). -/
inductive Ty where
  | bool
  | u8
  | u16
  | u32
  | u64
  | int8
  | bigInt
  | byteArr (n : Nat)
  | byteSlice
  | str
  | slice (elem : Ty)
  | arr (n : Nat) (elem : Ty)
  | strct (fields : List Ty)

mutual

/-- `isFixedType` from types.go.  `bigInt` is a Go struct whose `abs []Word`
field is a slice, so the source's struct case classifies it variable; `int8`
falls through to the `default: return false` case. -/
def isFixedType : Ty → Bool
  | .bool => true
  | .u8 => true
  | .u16 => true
  | .u32 => true
  | .u64 => true
  | .int8 => false
  | .bigInt => false
  | .byteArr _ => true
  | .byteSlice => false
  | .str => false
  | .slice _ => false
  | .arr _ elem => isFixedType elem
  | .strct fields => allFixed fields

/-- The field loop of `isFixedType`'s struct case. -/
def allFixed : List Ty → Bool
  | [] => true
  | t :: ts => isFixedType t && allFixed ts

end

mutual

/-- Head footprint of a type: the spec's `headSize` (§4.1).  For a fixed type
this is its full encoded width; for a variable type it is the 4-byte offset
slot.  The source computes the same quantity value-wise in `getTypeSize`;
`getTypeSize_eq_tySize` connects the two. -/
def tySize : Ty → Nat
  | .bool => 1
  | .u8 => 1
  | .u16 => 2
  | .u32 => 4
  | .u64 => 8
  | .int8 => 0
  | .bigInt => 4
  | .byteArr n => n
  | .byteSlice => 4
  | .str => 4
  | .slice _ => 4
  | .arr n elem => if isFixedType elem then n * tySize elem else 4
  | .strct fields => if allFixed fields then tySizeSum fields else 4

def tySizeSum : List Ty → Nat
  | [] => 0
  | t :: ts => tySize t + tySizeSum ts

end

mutual

/-- Whether the source's `getTypeSize` is defined (does not panic) on values
of this type.  Its fixed-array case evaluates `v.Index(0)`, which panics on a
zero-length array, and its fixed-struct case recurses into every field; the
variable cases return 4 without recursing.  So the size pass is partial
exactly on types that reach a zero-length fixed non-byte array through
fixed composites.  (`[0]byte` is handled by the byte-array case and stays
defined.) -/
def sizeDefined : Ty → Bool
  | .arr n elem => if isFixedType elem then decide (0 < n) && sizeDefined elem else true
  | .strct fields => if allFixed fields then allSizeDefined fields else true
  | _ => true

/-- The field loop of `sizeDefined`'s struct case. -/
def allSizeDefined : List Ty → Bool
  | [] => true
  | t :: ts => sizeDefined t && allSizeDefined ts

end

/-- Runtime values (`reflect.Value`).  Slices and arrays carry their declared
element type, as a Go slice/array value does even when empty. -/
inductive Val where
  | bool (b : Bool)
  | u8 (n : Nat)
  | u16 (n : Nat)
  | u32 (n : Nat)
  | u64 (n : Nat)
  | int8 (i : Int)
  | bigInt (i : Int)
  | byteArr (bs : List Nat)
  | byteSlice (bs : List Nat)
  | str (bs : List Nat)
  | slice (elem : Ty) (elems : List Val)
  | arr (elem : Ty) (elems : List Val)
  | strct (fields : List Val)

mutual

/-- `reflect.Value.Type` on the modelled values. -/
def typeOf : Val → Ty
  | .bool _ => .bool
  | .u8 _ => .u8
  | .u16 _ => .u16
  | .u32 _ => .u32
  | .u64 _ => .u64
  | .int8 _ => .int8
  | .bigInt _ => .bigInt
  | .byteArr bs => .byteArr bs.length
  | .byteSlice _ => .byteSlice
  | .str _ => .str
  | .slice elem _ => .slice elem
  | .arr elem elems => .arr elems.length elem
  | .strct fields => .strct (typeOfList fields)

def typeOfList : List Val → List Ty
  | [] => []
  | v :: vs => typeOf v :: typeOfList vs

end

mutual

/-- `getTypeSize` from types.go, on values.  The function is partial: the
fixed-array case computes `v.Len() * getTypeSize(v.Index(0))` and the
`v.Index(0)` call panics on a zero-length array, rendered here as `none`; a
panic anywhere below also propagates as `none`. -/
def getTypeSize : Val → Option Nat
  | .bool _ => some 1
  | .u8 _ => some 1
  | .u16 _ => some 2
  | .u32 _ => some 4
  | .u64 _ => some 8
  | .int8 _ => some 0
  | .bigInt _ => some 4
  | .byteArr bs => some bs.length
  | .byteSlice _ => some 4
  | .str _ => some 4
  | .slice _ _ => some 4
  | .arr elem elems =>
      if isFixedType elem then
        match elems with
        | [] => none
        | e :: _ => (getTypeSize e).map (elems.length * ·)
      else some 4
  | .strct fields =>
      if allFixed (typeOfList fields) then getTypeSizeSum fields else some 4

/-- The field loop of `getTypeSize`'s fixed-struct case (`size +=
getTypeSize(v.Field(i))`): a panic at any field aborts the sum. -/
def getTypeSizeSum : List Val → Option Nat
  | [] => some 0
  | v :: vs =>
      match getTypeSize v with
      | none => none
      | some a => (getTypeSizeSum vs).map (a + ·)

end

/-- Little-endian bytes of `n` truncated to `w` bytes
(`binary.LittleEndian.PutUintN`). -/
def leBytes : Nat → Nat → List Nat
  | 0, _ => []
  | w + 1, n => n % 256 :: leBytes w (n / 256)

/-- Little-endian read (`binary.LittleEndian.UintN`). -/
def fromLE : List Nat → Nat
  | [] => 0
  | b :: bs => b + 256 * fromLE bs

/-- Minimal little-endian digits of `n`; the fuel argument only bounds the
recursion and `n` itself is always enough of it. -/
def natLEAux : Nat → Nat → List Nat
  | _, 0 => []
  | 0, _ + 1 => []
  | fuel + 1, n + 1 => (n + 1) % 256 :: natLEAux fuel ((n + 1) / 256)

/-- Minimal little-endian byte representation of a natural number. -/
def natLE (n : Nat) : List Nat := natLEAux n n

/-- `big.Int.Bytes()`: the minimal big-endian representation (empty for 0). -/
def beBytes (n : Nat) : List Nat := (natLE n).reverse

/-- The `encodeState` of the source: `buffer` accumulates the serialized
representation, `auxBuffer` the representations of the variable-size
children of the composite currently being encoded. -/
structure EncState where
  buffer : List Nat
  aux : List Nat
deriving DecidableEq

/-- `encodeState.Write`. -/
def EncState.write (st : EncState) (bs : List Nat) : EncState :=
  { st with buffer := st.buffer ++ bs }

/-- The `e.buffer.Write(e.auxBuffer.Bytes()); e.auxBuffer.Reset()` epilogue of
the composite encoders. -/
def EncState.flush (st : EncState) : EncState :=
  ⟨st.buffer ++ st.aux, []⟩

/-- A freshly reset pooled `encodeState`. -/
def EncState.empty : EncState := ⟨[], []⟩

/-- `newTypeEncoder`: which type descriptors resolve to an encoder.  In the
modelled universe only the signed-integer kind falls through to the
`default` branch's error. -/
def typeEncoderErr : Ty → Option Err
  | .int8 => some (.unsupportedType "int8")
  | _ => none

/-- The loop body of `encodeBigInt` that copies the big-endian bytes into the
scratch buffer in reverse: at step `i` the source writes
`scratch[len(bigEndian)-i-1] = bigEndian[i]`, and `len(bigEndian)-i-1` is
exactly the number of bytes still to process after index `i`. -/
def writeRev : List Nat → List Nat → List Nat
  | [], s => s
  | b :: rest, s => writeRev rest (s.set rest.length b)

/-- The zero-padding loop of `encodeBigInt`:
`for i := start; i < start+count; i++ { scratch[i] = 0 }`. -/
def padZeros : Nat → Nat → List Nat → List Nat
  | _, 0, s => s
  | start, count + 1, s => padZeros (start + 1) count (s.set start 0)

/-- `encodeBigInt` from the source, parameterized by the contents of the
32-byte scratch buffer it writes through (the pooled `encodeState.scratch`
may hold junk from earlier encodes). -/
def encodeBigInt (scratch : List Nat) (i : Int) : Except Err (List Nat) :=
  if i < 0 then .error .negativeBigInt
  else
    let bigEndian := beBytes i.toNat
    if bigEndian.length < 9 ∨ bigEndian.length > 32 then .error .bigIntWidth
    else
      let scratch := writeRev bigEndian scratch
      let length := if bigEndian.length ≥ 17 then 32 else 16
      let scratch := padZeros bigEndian.length (length - bigEndian.length) scratch
      .ok (scratch.take length)

mutual

/-- Running the encoder resolved for a value's type: the `encoderFunc`s of the
source.  Go encoders mutate the shared `encodeState` and return an error;
here they return the mutated state together with the optional error, so a Go
call site that discards the error is modelled by keeping the state and
dropping the second component.  The pseudo-error `Err.panicked` stands for a
runtime panic (raised when `encodeStruct`'s size pass hits a zero-length
fixed array); unlike returned errors it is re-raised at every call site,
mirroring stack unwinding. -/
def encVal : Val → EncState → EncState × Option Err
  | .bool b, st => (st.write (if b then [1] else [0]), none)
  | .u8 n, st => (st.write [n % 256], none)
  | .u16 n, st => (st.write (leBytes 2 n), none)
  | .u32 n, st => (st.write (leBytes 4 n), none)
  | .u64 n, st => (st.write (leBytes 8 n), none)
  | .int8 _, st => (st, none)
  | .bigInt i, st =>
      match encodeBigInt (List.replicate 32 0) i with
      | .error e => (st, some e)
      | .ok bs => (st.write bs, none)
  | .byteArr bs, st => (st.write bs, none)
  | .byteSlice bs, st => (st.write bs, none)
  | .str bs, st => (st.write bs, none)
  | .slice elemTy elems, st =>
      let s1size := if isFixedType elemTy then 0 else elems.length * 4
      match typeEncoderErr elemTy with
      | some _ => (st, none)
      | none =>
          match encSliceElems elemTy s1size elems st with
          | (st1, some e) => (st1, some e)
          | (st1, none) => (st1.flush, none)
  | .arr elemTy elems, st =>
      let s1size := if isFixedType elemTy then 0 else 4 * elems.length
      match elems with
      | [] => (st.flush, none)
      | _ :: _ =>
          match typeEncoderErr elemTy with
          | some _ => (st, none)
          | none =>
              match encArrElems elemTy s1size elems st with
              | (st1, some e) => (st1, some e)
              | (st1, none) => (st1.flush, none)
  | .strct fields, st =>
      match getTypeSizeSum fields with
      | none => (st, some .panicked)
      | some s1size =>
          match encStructFields s1size fields st with
          | (st1, some e) => (st1, some e)
          | (st1, none) => (st1.flush, none)

/-- The element loop of `encodeSlice`.  Fixed elements are encoded in place
with the error of `ef(e, elem)` discarded; variable elements write an offset
`uint32(s1size + e.auxBuffer.Len())` and append the element's standalone
encoding (produced in a fresh pooled state, error again discarded) to the
auxiliary buffer.  Only a panic escapes the loop (by unwinding), so the only
`some` this loop can produce is `panicked`, and it skips the flush. -/
def encSliceElems (elemTy : Ty) (s1size : Nat) : List Val → EncState → EncState × Option Err
  | [], st => (st, none)
  | e :: rest, st =>
      if isFixedType elemTy then
        match encVal e st with
        | (st1, some .panicked) => (st1, some .panicked)
        | (st1, _) => encSliceElems elemTy s1size rest st1
      else
        let st1 := st.write (leBytes 4 (s1size + st.aux.length))
        match encVal e EncState.empty with
        | (_, some .panicked) => (st1, some .panicked)
        | (inner, _) => encSliceElems elemTy s1size rest { st1 with aux := st1.aux ++ inner.buffer }

/-- The element loop of `encodeArray` (non-interface element type): like the
slice loop, except a fixed element's encoding error is propagated
(`if err := ef(e, elem); err != nil { return err }`); a variable element's
error is discarded, but a panic still unwinds. -/
def encArrElems (elemTy : Ty) (s1size : Nat) : List Val → EncState → EncState × Option Err
  | [], st => (st, none)
  | e :: rest, st =>
      if isFixedType elemTy then
        match encVal e st with
        | (st1, some e) => (st1, some e)
        | (st1, none) => encArrElems elemTy s1size rest st1
      else
        let st1 := st.write (leBytes 4 (s1size + st.aux.length))
        match encVal e EncState.empty with
        | (_, some .panicked) => (st1, some .panicked)
        | (inner, _) => encArrElems elemTy s1size rest { st1 with aux := st1.aux ++ inner.buffer }

/-- The second `walkStruct` pass of `encodeStruct`.  A field whose type fails
to resolve aborts the walk, and `encodeStruct` discards the error; the
encoding errors of both the fixed and the variable branch are discarded by
the callback itself; a panic below unwinds and is the only `some` this loop
produces. -/
def encStructFields (s1size : Nat) : List Val → EncState → EncState × Option Err
  | [], st => (st, none)
  | f :: rest, st =>
      match typeEncoderErr (typeOf f) with
      | some _ => (st, none)
      | none =>
          if isFixedType (typeOf f) then
            match encVal f st with
            | (st1, some .panicked) => (st1, some .panicked)
            | (st1, _) => encStructFields s1size rest st1
          else
            let st1 := st.write (leBytes 4 (s1size + st.aux.length))
            match encVal f EncState.empty with
            | (_, some .panicked) => (st1, some .panicked)
            | (inner, _) => encStructFields s1size rest { st1 with aux := st1.aux ++ inner.buffer }

end

/-- `encodeState.encode`: resolve the top-level type, then run the encoder. -/
def esEncode (v : Val) (st : EncState) : EncState × Option Err :=
  match typeEncoderErr (typeOf v) with
  | some e => (st, some e)
  | none => encVal v st

/-- Top-level `Encode` as observed through the sink: the first component is
the returned error, the second the bytes written to the caller's writer.
`es.toWriter(w)` runs only when `es.encode(val)` returned nil. -/
def EncodeToSink (v : Val) : Except Err Unit × List Nat :=
  match esEncode v EncState.empty with
  | (_, some e) => (.error e, [])
  | (st, none) => (.ok (), st.buffer)

/-- Top-level `Encode`, returning the bytes delivered to the writer. -/
def Encode (v : Val) : Except Err (List Nat) :=
  match esEncode v EncState.empty with
  | (_, some e) => .error e
  | (st, none) => .ok st.buffer

/-- The `Stream` of the source: a `bytes.Reader` over a fully buffered input,
i.e. an immutable byte buffer plus a read position. -/
structure Stream where
  data : List Nat
  pos : Nat
deriving DecidableEq

/-- `Stream.size`: `bytes.Reader.Size` is the length of the underlying
buffer, independent of the read position. -/
def Stream.size (s : Stream) : Nat := s.data.length

/-- `Stream.readByte` (`bytes.Reader.ReadByte`): `io.EOF` when exhausted. -/
def Stream.readByte (s : Stream) : Except Err (Nat × Stream) :=
  match s.data.drop s.pos with
  | [] => .error .eof
  | b :: _ => .ok (b, ⟨s.data, s.pos + 1⟩)

/-- `Stream.readBytes`: loops `Read` until the buffer is full; a short read
ending in `io.EOF` is turned into `io.ErrUnexpectedEOF` (so, unlike
`readByte`, this never surfaces a clean `io.EOF`). -/
def Stream.readBytes (s : Stream) (n : Nat) : Except Err (List Nat × Stream) :=
  if s.pos + n ≤ s.data.length then
    .ok ((s.data.drop s.pos).take n, ⟨s.data, s.pos + n⟩)
  else .error .unexpectedEOF

/-- `Stream.readOffset`: four bytes, little-endian. -/
def Stream.readOffset (s : Stream) : Except Err (Nat × Stream) :=
  match s.readBytes 4 with
  | .error e => .error e
  | .ok (bs, s1) => .ok (fromLE bs, s1)

/-- `Stream.newSectionStream`: `bytes.Reader.ReadAt(buf, offset)` over the
full underlying buffer (position-independent), wrapped in a fresh stream.
`ReadAt` returns `io.EOF` when the offset is at or past the end, or when
fewer than `length` bytes are available.  (When `offset > size` the Go caller
would already have panicked building a negative-length buffer; no claim
reaches that case.) -/
def Stream.newSectionStream (s : Stream) (offset len : Nat) : Except Err Stream :=
  if offset ≥ s.data.length then .error .eof
  else if offset + len ≤ s.data.length then .ok ⟨(s.data.drop offset).take len, 0⟩
  else .error .eof

/-- `newTypeDecoder`: which type descriptors resolve to a decoder.  Most of
the dispatch is commented out in the source, so structs (including
`big.Int`), strings and signed integers all fall through to the `default`
error carrying the reflect kind. -/
def typeDecoderErr : Ty → Option Err
  | .int8 => some (.unsupportedType "int8")
  | .bigInt => some (.unsupportedType "struct")
  | .str => some (.unsupportedType "string")
  | .strct _ => some (.unsupportedType "struct")
  | _ => none

/-- `uint64(int8(b))`: two's-complement sign extension of a byte to 64 bits,
as in the 1-byte case of `decodeUint`. -/
def signExtByte (b : Nat) : Nat :=
  if b % 256 < 128 then b % 256 else 2 ^ 64 - 256 + b % 256

/-- `decodeBool`: one byte; `0x01` is true, anything else false. -/
def decodeBool (s : Stream) : Except Err (Val × Stream) :=
  match s.readByte with
  | .error e => .error e
  | .ok (b, s1) => .ok (.bool (b == 1), s1)

/-- The size/`SetUint` switch of `decodeUint`, returning the `uint64` the
source passes to `val.SetUint`: the 1-byte case goes through `int8`. -/
def decodeUintRaw (size : Nat) (s : Stream) : Except Err (Nat × Stream) :=
  match s.readBytes size with
  | .error e => .error e
  | .ok (bs, s1) =>
      match size with
      | 1 => .ok (signExtByte (bs.headD 0), s1)
      | _ => .ok (fromLE bs, s1)

/-- `decodeUint` dispatched on the target's kind: read `getTypeSize` bytes,
then `reflect.Value.SetUint` truncates the `uint64` to the target width. -/
def decodeUint (t : Ty) (s : Stream) : Except Err (Val × Stream) :=
  match t with
  | .u8 =>
      match decodeUintRaw 1 s with
      | .error e => .error e
      | .ok (x, s1) => .ok (.u8 (x % 2 ^ 8), s1)
  | .u16 =>
      match decodeUintRaw 2 s with
      | .error e => .error e
      | .ok (x, s1) => .ok (.u16 (x % 2 ^ 16), s1)
  | .u32 =>
      match decodeUintRaw 4 s with
      | .error e => .error e
      | .ok (x, s1) => .ok (.u32 (x % 2 ^ 32), s1)
  | .u64 =>
      match decodeUintRaw 8 s with
      | .error e => .error e
      | .ok (x, s1) => .ok (.u64 (x % 2 ^ 64), s1)
  | _ => .error (.unsupportedType "decodeUint")

mutual

/-- The zero value of a type: decode targets are modelled as freshly
allocated (`new(T)`), so unwritten positions hold Go zero values. -/
def zeroVal : Ty → Val
  | .bool => .bool false
  | .u8 => .u8 0
  | .u16 => .u16 0
  | .u32 => .u32 0
  | .u64 => .u64 0
  | .int8 => .int8 0
  | .bigInt => .bigInt 0
  | .byteArr n => .byteArr (List.replicate n 0)
  | .byteSlice => .byteSlice []
  | .str => .str []
  | .slice elem => .slice elem []
  | .arr n elem => .arr elem (List.replicate n (zeroVal elem))
  | .strct fields => .strct (zeroValList fields)

/-- Zero values of a struct's fields. -/
def zeroValList : List Ty → List Val
  | [] => []
  | t :: ts => zeroVal t :: zeroValList ts

end

/-- `decodeSliceElems`: decode elements until the element decoder surfaces a
clean `io.EOF`, which terminates the loop successfully (the speculatively
grown last element is trimmed away); any other error propagates.  The fuel
bounds the loop; Go itself loops forever when an element decoder consumes
nothing, and `outOfFuel` stands in for that non-termination. -/
def decodeSliceElems (elemdec : Stream → Except Err (Val × Stream)) :
    Nat → Stream → List Val → Except Err (List Val × Stream)
  | 0, _, _ => .error .outOfFuel
  | fuel + 1, s, acc =>
      match elemdec s with
      | .error .eof => .ok (acc, s)
      | .error e => .error e
      | .ok (v, s1) => decodeSliceElems elemdec fuel s1 (acc ++ [v])

/-- The byte-element instance of `decodeSliceElems` used when decoding
`[]byte`: each element goes through `decodeUint`'s 1-byte case and is
truncated to a `uint8` by `SetUint`. -/
def decodeByteElems : Nat → Stream → List Nat → Except Err (List Nat × Stream)
  | 0, _, _ => .error .outOfFuel
  | fuel + 1, s, acc =>
      match decodeUintRaw 1 s with
      | .error .eof => .ok (acc, s)
      | .error e => .error e
      | .ok (x, s1) => decodeByteElems fuel s1 (acc ++ [x % 2 ^ 8])

/-- The element loop of `decodeArray` for a `[N]byte` target: a clean
`io.EOF` breaks, leaving the remaining elements at their zero values. -/
def decodeByteArr : Nat → Stream → Except Err (List Nat × Stream)
  | 0, s => .ok ([], s)
  | n + 1, s =>
      match decodeUintRaw 1 s with
      | .error .eof => .ok (List.replicate (n + 1) 0, s)
      | .error e => .error e
      | .ok (x, s1) =>
          match decodeByteArr n s1 with
          | .error e => .error e
          | .ok (bs, s2) => .ok (x % 2 ^ 8 :: bs, s2)

/-- The element loop of `decodeArray` (non-interface target): decode up to
`n` elements; a clean `io.EOF` breaks early, leaving the rest at their zero
values; other errors propagate. -/
def decodeArrElems (elemdec : Stream → Except Err (Val × Stream)) (zero : Val) :
    Nat → Stream → Except Err (List Val × Stream)
  | 0, s => .ok ([], s)
  | n + 1, s =>
      match elemdec s with
      | .error .eof => .ok (List.replicate (n + 1) zero, s)
      | .error e => .error e
      | .ok (v, s1) =>
          match decodeArrElems elemdec zero n s1 with
          | .error e => .error e
          | .ok (vs, s2) => .ok (v :: vs, s2)

/-- The decoder resolved for a target type: the `DecoderFunc`s of the source.
`decodeSlice` and `decodeArray` swallow a failed element-decoder resolution
(`if err != nil { return nil }`), leaving the target at its zero value; for
a variable-size element type, `decodeSlice` reads one offset and decodes the
whole remaining section `[offset, size)` sequentially. -/
def decVal : Ty → Nat → Stream → Except Err (Val × Stream)
  | .bool, _, s => decodeBool s
  | .u8, _, s => decodeUint .u8 s
  | .u16, _, s => decodeUint .u16 s
  | .u32, _, s => decodeUint .u32 s
  | .u64, _, s => decodeUint .u64 s
  | .int8, _, _ => .error (.unsupportedType "int8")
  | .bigInt, _, _ => .error (.unsupportedType "struct")
  | .str, _, _ => .error (.unsupportedType "string")
  | .strct _, _, _ => .error (.unsupportedType "struct")
  | .byteArr n, _, s =>
      match decodeByteArr n s with
      | .error e => .error e
      | .ok (bs, s1) => .ok (.byteArr bs, s1)
  | .byteSlice, fuel, s =>
      match decodeByteElems fuel s [] with
      | .error e => .error e
      | .ok (bs, s1) => .ok (.byteSlice bs, s1)
  | .slice elemTy, fuel, s =>
      match typeDecoderErr elemTy with
      | some _ => .ok (zeroVal (.slice elemTy), s)
      | none =>
          if isFixedType elemTy then
            match decodeSliceElems (fun s2 => decVal elemTy fuel s2) fuel s [] with
            | .error e => .error e
            | .ok (vs, s1) => .ok (.slice elemTy vs, s1)
          else
            match s.readOffset with
            | .error e => .error e
            | .ok (offset, s1) =>
                match s1.newSectionStream offset (s1.size - offset) with
                | .error e => .error e
                | .ok ss =>
                    match decodeSliceElems (fun s2 => decVal elemTy fuel s2) fuel ss [] with
                    | .error e => .error e
                    | .ok (vs, _) => .ok (.slice elemTy vs, s1)
  | .arr n elemTy, fuel, s =>
      match typeDecoderErr elemTy with
      | some _ => .ok (zeroVal (.arr n elemTy), s)
      | none =>
          match decodeArrElems (fun s2 => decVal elemTy fuel s2) (zeroVal elemTy) n s with
          | .error e => .error e
          | .ok (vs, s1) => .ok (.arr elemTy vs, s1)

/-- The decode targets `Stream.Decode` distinguishes: an untyped nil
interface, a non-pointer value, a typed nil pointer, and a valid pointer to
a zero-initialized slot of type `t`. -/
inductive Target where
  | nilInterface
  | nonPtr (t : Ty)
  | nilPtr (t : Ty)
  | ptr (t : Ty)

/-- `Stream.Decode`: nil target ⇒ `errDecodeIntoNil`; non-pointer ⇒
`errNoPointer`; nil pointer ⇒ `errDecodeIntoNil`; otherwise resolve a
decoder with `newTypeDecoder` and run it. -/
def streamDecode (fuel : Nat) (s : Stream) (tgt : Target) : Except Err Val :=
  match tgt with
  | .nilInterface => .error .decodeIntoNil
  | .nonPtr _ => .error .notAPointer
  | .nilPtr _ => .error .decodeIntoNil
  | .ptr t =>
      match typeDecoderErr t with
      | some e => .error e
      | none =>
          match decVal t fuel s with
          | .error e => .error e
          | .ok (v, _) => .ok v

/-- The little-endian uint32 stored at byte position `i` of a buffer. -/
def u32At (bs : List Nat) (i : Nat) : Nat := fromLE ((bs.drop i).take 4)

/-!  Theorems settling the claims, in claim order. -/

/-- Claim C1 (code_bug evidence): the round-trip `decode(encode(v)) = v`
fails on the code for supported values.  The struct `{A bool}` (the record
shape of spec §3.1) encodes successfully to the single byte `0x00`, but
decoding that byte back into a pointer-to-struct target fails with the
unsupported-type error, because every struct case of `newTypeDecoder` is
commented out in the source. -/
theorem c1_struct_roundtrip_fails :
    Encode (.strct [.bool false]) = .ok [0] ∧
    streamDecode 10 ⟨[0], 0⟩ (.ptr (.strct [.bool])) = .error (.unsupportedType "struct") :=
  ⟨rfl, rfl⟩

/-- Claim C2 (code_bug evidence): codec-resolution errors for unsupported
element types of slices are swallowed, not surfaced.  Resolving an encoder
for `int8` fails, and a top-level `int8` therefore errors; but encoding the
slice `[]int8{5}` succeeds with empty output, because `encodeSlice` returns
nil when `typeEncoder` on the element type fails. -/
theorem c2_slice_resolution_error_swallowed :
    typeEncoderErr .int8 = some (.unsupportedType "int8") ∧
    Encode (.int8 5) = .error (.unsupportedType "int8") ∧
    Encode (.slice .int8 [.int8 5]) = .ok [] :=
  ⟨rfl, rfl, rfl⟩

/-- Claim C4 (code_bug evidence): inside one composite, the emitted offsets
are not non-decreasing.  For the struct `{A []byte{0x61,0x62}, B []byte{0x63},
D [1]bool, C []byte{0x64}}` the fixed head size is 13, the offsets written
for A, B, C are 13, 15 and then 13 again — because encoding the inline fixed
array `D` flushes and resets the shared auxiliary tail buffer mid-struct —
so the offset for C regresses below the offset for B (and no longer equals
head size plus the 3 tail bytes accumulated for A and B). -/
theorem c4_struct_offsets_regress :
    getTypeSizeSum [.byteSlice [0x61, 0x62], .byteSlice [0x63],
      .arr .bool [.bool true], .byteSlice [0x64]] = some 13 ∧
    Encode (.strct [.byteSlice [0x61, 0x62], .byteSlice [0x63],
      .arr .bool [.bool true], .byteSlice [0x64]]) =
      .ok [13, 0, 0, 0, 15, 0, 0, 0, 1, 0x61, 0x62, 0x63, 13, 0, 0, 0, 0x64] ∧
    u32At [13, 0, 0, 0, 15, 0, 0, 0, 1, 0x61, 0x62, 0x63, 13, 0, 0, 0, 0x64] 0 = 13 ∧
    u32At [13, 0, 0, 0, 15, 0, 0, 0, 1, 0x61, 0x62, 0x63, 13, 0, 0, 0, 0x64] 4 = 15 ∧
    u32At [13, 0, 0, 0, 15, 0, 0, 0, 1, 0x61, 0x62, 0x63, 13, 0, 0, 0, 0x64] 12 = 13 ∧
    ¬ u32At [13, 0, 0, 0, 15, 0, 0, 0, 1, 0x61, 0x62, 0x63, 13, 0, 0, 0, 0x64] 4 ≤
        u32At [13, 0, 0, 0, 15, 0, 0, 0, 1, 0x61, 0x62, 0x63, 13, 0, 0, 0, 0x64] 12 :=
  ⟨rfl, rfl, rfl, rfl, rfl, by decide⟩

/-- Claim C6 (code_bug evidence): the decoder of a slice with variable-size
elements does not derive the element count `O₁/4` and does not delimit
elements by consecutive offsets.  On the encoder's own output for
`[][]byte{{0xfe,0xff},{0x01,0x02}}` it reads the first offset 8, builds one
section over the whole tail `[8, 12)` and decodes elements sequentially,
so the first element consumes all four payload bytes and the decode fails
with an unexpected-EOF error instead of producing the two elements. -/
theorem c6_variable_slice_decode_ignores_offsets :
    Encode (.slice .byteSlice [.byteSlice [0xfe, 0xff], .byteSlice [0x01, 0x02]]) =
      .ok [8, 0, 0, 0, 10, 0, 0, 0, 0xfe, 0xff, 0x01, 0x02] ∧
    streamDecode 100 ⟨[8, 0, 0, 0, 10, 0, 0, 0, 0xfe, 0xff, 0x01, 0x02], 0⟩
      (.ptr (.slice .byteSlice)) = .error .unexpectedEOF :=
  ⟨rfl, rfl⟩

/-- Claim C8: `Stream.Decode` rejects a nil target and a typed nil pointer
with `errDecodeIntoNil`, and a non-pointer target with `errNoPointer`,
for every input stream and target type, before decoding anything. -/
theorem c8_decode_target_contract (fuel : Nat) (s : Stream) (t : Ty) :
    streamDecode fuel s .nilInterface = .error .decodeIntoNil ∧
    streamDecode fuel s (.nonPtr t) = .error .notAPointer ∧
    streamDecode fuel s (.nilPtr t) = .error .decodeIntoNil :=
  ⟨rfl, rfl, rfl⟩

/-- Claim C9: encoding `[][]byte{{0xfe,0xff},{0x01,0x02}}` produces exactly
the 12 bytes `08 00 00 00 0a 00 00 00 fe ff 01 02`: the little-endian
offsets 8 and 10 followed by the two payloads in order. -/
theorem c9_nested_byte_slice_encoding :
    Encode (.slice .byteSlice [.byteSlice [0xfe, 0xff], .byteSlice [0x01, 0x02]]) =
      .ok [0x08, 0x00, 0x00, 0x00, 0x0a, 0x00, 0x00, 0x00, 0xfe, 0xff, 0x01, 0x02] :=
  rfl

/-- Claim C10: whenever top-level `Encode` returns an error, nothing has
been written to the caller's sink — `es.toWriter(w)` runs only after
`es.encode(val)` succeeded. -/
theorem c10_error_leaves_sink_empty (v : Val) (e : Err)
    (h : (EncodeToSink v).1 = .error e) : (EncodeToSink v).2 = [] := by
  rcases hq : esEncode v EncState.empty with ⟨st, oe⟩
  cases oe <;> simp [EncodeToSink, hq] at h ⊢

/-- Witness for C10 at the concrete input `int8(0)`: encoding fails with the
unsupported-type error and the sink stays empty. -/
theorem c10_witness :
    (EncodeToSink (.int8 0)).1 = .error (.unsupportedType "int8") ∧
    (EncodeToSink (.int8 0)).2 = [] :=
  ⟨rfl, c10_error_leaves_sink_empty (.int8 0) (.unsupportedType "int8") rfl⟩

/-- `uint64(int8(b))` truncated back to a byte by `SetUint` recovers `b`. -/
theorem signExtByte_mod_256 (b : Nat) (hb : b < 256) : signExtByte b % 256 = b := by
  unfold signExtByte
  rw [Nat.mod_eq_of_lt hb]
  by_cases h : b < 128
  · rw [if_pos h]; omega
  · rw [if_neg h]; omega

/-- Claim C5: reading a byte `b` with `decodeUint` into a `uint8` target
succeeds and stores the unsigned value `b`, for any position in any stream:
the sign extension through `int8` is cancelled by `SetUint`'s truncation to
the 8-bit target, so all 256 byte values survive and `uint8` round-trips. -/
theorem c5_uint8_decode_stores_unsigned (b : Nat) (pre post : List Nat) (hb : b < 256) :
    decodeUint .u8 ⟨pre ++ b :: post, pre.length⟩ =
      .ok (.u8 b, ⟨pre ++ b :: post, pre.length + 1⟩) ∧
    Encode (.u8 b) = .ok [b] ∧
    streamDecode 0 ⟨[b], 0⟩ (.ptr .u8) = .ok (.u8 b) := by
  have hread : Stream.readBytes ⟨pre ++ b :: post, pre.length⟩ 1 =
      .ok ([b], ⟨pre ++ b :: post, pre.length + 1⟩) := by
    unfold Stream.readBytes
    rw [if_pos (by simp only [List.length_append, List.length_cons]; omega)]
    rw [List.drop_left pre (b :: post)]
    rfl
  refine ⟨?_, ?_, ?_⟩
  · simp [decodeUint, decodeUintRaw, hread, signExtByte_mod_256 b hb]
  · simp [Encode, esEncode, typeOf, typeEncoderErr, encVal, EncState.empty, EncState.write,
      Nat.mod_eq_of_lt hb]
  · simp [streamDecode, typeDecoderErr, decVal, decodeUint, decodeUintRaw,
      Stream.readBytes, signExtByte_mod_256 b hb]

/-- Witness for C5 at `b = 255`, the byte on which sign extension through
`int8` is most visible. -/
theorem c5_witness :
    decodeUint .u8 ⟨[255], 0⟩ = .ok (.u8 255, ⟨[255], 1⟩) ∧
    Encode (.u8 255) = .ok [255] ∧
    streamDecode 0 ⟨[255], 0⟩ (.ptr .u8) = .ok (.u8 255) :=
  c5_uint8_decode_stores_unsigned 255 [] [] (by omega)

/-- Setting the position right after a prefix replaces the head of the rest. -/
theorem set_append_cons : ∀ (p : List Nat) (x : Nat) (q : List Nat) (a : Nat),
    (p ++ x :: q).set p.length a = p ++ a :: q
  | [], _, _, _ => rfl
  | h :: t, x, q, a => congrArg (List.cons h) (set_append_cons t x q a)

/-- The reverse-copy loop of `encodeBigInt` overwrites the first `l.length`
scratch bytes with `l` reversed and leaves the rest of the scratch alone. -/
theorem writeRev_eq : ∀ (l s : List Nat), l.length ≤ s.length →
    writeRev l s = l.reverse ++ s.drop l.length
  | [], s, _ => by simp [writeRev]
  | b :: rest, s, h => by
    have hlt : rest.length < s.length := by
      simpa using Nat.lt_of_lt_of_le (Nat.lt_succ_self _) h
    rw [writeRev, writeRev_eq rest _ (by simpa using Nat.le_of_lt hlt)]
    rw [List.set_eq_take_cons_drop b hlt]
    have htake : (s.take rest.length).length = rest.length := by
      simp [Nat.min_eq_left (Nat.le_of_lt hlt)]
    have hdl := List.drop_left (s.take rest.length) (b :: s.drop (rest.length + 1))
    rw [htake] at hdl
    rw [hdl]
    simp

/-- The zero-padding loop of `encodeBigInt`, started right after a prefix,
zeroes the next `count` bytes and leaves everything else alone. -/
theorem padZeros_append : ∀ (count : Nat) (p q : List Nat), count ≤ q.length →
    padZeros p.length count (p ++ q) = p ++ List.replicate count 0 ++ q.drop count
  | 0, p, q, _ => by simp [padZeros]
  | count + 1, p, q, h => by
    match q with
    | [] => simp at h
    | q0 :: q1 =>
      rw [padZeros, set_append_cons p q0 q1 0]
      rw [show p ++ 0 :: q1 = (p ++ [0]) ++ q1 by simp]
      rw [show p.length + 1 = (p ++ [0]).length by simp]
      rw [padZeros_append count (p ++ [0]) q1 (by simpa using h)]
      simp [List.replicate_succ]

/-- The bytes `encodeBigInt` emits, before truncating the scratch to the
chosen width `W`: the little-endian digits of the value followed by zero
padding, independent of the previous scratch contents. -/
theorem encodeBigInt_scratch_take (scratch : List Nat) (hs : scratch.length = 32)
    (n W : Nat) (hLW : (beBytes n).length ≤ W) (hW : W ≤ 32) :
    (padZeros (beBytes n).length (W - (beBytes n).length) (writeRev (beBytes n) scratch)).take W =
      natLE n ++ List.replicate (W - (beBytes n).length) 0 := by
  have hrev : (beBytes n).reverse = natLE n := by simp [beBytes]
  have hLnat : (natLE n).length = (beBytes n).length := by simp [beBytes]
  rw [writeRev_eq _ _ (by omega), hrev]
  rw [show (beBytes n).length = (natLE n).length from hLnat.symm]
  rw [padZeros_append _ _ _ (by simp [List.length_drop]; omega)]
  have hpre : ((natLE n ++ List.replicate (W - (natLE n).length) 0)).length = W := by
    simp; omega
  have htl := List.take_left (natLE n ++ List.replicate (W - (natLE n).length) 0)
      ((scratch.drop (natLE n).length).drop (W - (natLE n).length))
  rw [hpre] at htl
  exact htl

/-- Claim C7: `encodeBigInt` rejects a negative value with the negative-big-int
error and a value whose minimal big-endian length is outside `[9, 32]` with
the width error; otherwise it writes the value little-endian, zero-padded to
exactly 16 bytes when that length is at most 16 and to exactly 32 bytes when
it is 17 to 32 — whatever the pooled 32-byte scratch buffer held before. -/
theorem c7_encodeBigInt_contract (scratch : List Nat) (hs : scratch.length = 32) (i : Int) :
    (i < 0 → encodeBigInt scratch i = .error .negativeBigInt) ∧
    (0 ≤ i → ((beBytes i.toNat).length < 9 ∨ (beBytes i.toNat).length > 32) →
        encodeBigInt scratch i = .error .bigIntWidth) ∧
    (0 ≤ i → 9 ≤ (beBytes i.toNat).length → (beBytes i.toNat).length ≤ 16 →
        encodeBigInt scratch i =
          .ok (natLE i.toNat ++ List.replicate (16 - (beBytes i.toNat).length) 0) ∧
        (natLE i.toNat ++ List.replicate (16 - (beBytes i.toNat).length) 0).length = 16) ∧
    (0 ≤ i → 17 ≤ (beBytes i.toNat).length → (beBytes i.toNat).length ≤ 32 →
        encodeBigInt scratch i =
          .ok (natLE i.toNat ++ List.replicate (32 - (beBytes i.toNat).length) 0) ∧
        (natLE i.toNat ++ List.replicate (32 - (beBytes i.toNat).length) 0).length = 32) := by
  have hLnat : (natLE i.toNat).length = (beBytes i.toNat).length := by simp [beBytes]
  refine ⟨fun h => by simp [encodeBigInt, h], ?_, ?_, ?_⟩
  · intro h0 hw
    unfold encodeBigInt
    rw [if_neg (Int.not_lt.mpr h0), if_pos hw]
  · intro h0 h9 h16
    unfold encodeBigInt
    rw [if_neg (Int.not_lt.mpr h0), if_neg (by omega)]
    rw [if_neg (by omega)]
    exact ⟨congrArg Except.ok
        (encodeBigInt_scratch_take scratch hs i.toNat 16 h16 (by omega)),
      by simp; omega⟩
  · intro h0 h17 h32
    unfold encodeBigInt
    rw [if_neg (Int.not_lt.mpr h0), if_neg (by omega)]
    rw [if_pos (by omega)]
    exact ⟨congrArg Except.ok
        (encodeBigInt_scratch_take scratch hs i.toNat 32 h32 (by omega)),
      by simp; omega⟩

/-- Witness for C7 at the 9-byte value `0x02_0000000000000001` of the test
suite, with an all-zero scratch: the 16-byte little-endian padded output. -/
theorem c7_witness :
    encodeBigInt (List.replicate 32 0) 36893488147419103233 =
      .ok [1, 0, 0, 0, 0, 0, 0, 0, 2, 0, 0, 0, 0, 0, 0, 0] := by
  have h := ((c7_encodeBigInt_contract (List.replicate 32 0) (by simp)
      36893488147419103233).2.2.1 (by decide) (by decide) (by decide)).1
  exact h.trans (by rfl)

end SSZ
